import Mathlib

/-!
Shallow embedding of the archive-sync and delivery-tracking subsystem of the
repository (src/discord.js, src/sync-archives.js), together with theorems
settling the specification claims about it.

Modelling conventions:
* Machine integers and JavaScript numbers carrying millisecond timestamps are
  modelled as `Int` (the values involved are exact integers in JS doubles).
* The filesystem and the network are modelled by explicit parameters: the list
  of discovered archive paths, the loaded content of the sent-log, a boolean
  file-existence oracle, and a per-file delivery outcome function.
* `new Date(year, monthIndex, day).getTime()` is modelled at UTC (timezone
  offset 0) via the standard civil-from-days calendar arithmetic, including
  the JavaScript mapping of two-digit years 0..99 to 1900..1999 and
  normalization of out-of-range day numbers by linear day arithmetic.
* `Array.prototype.sort` with the numeric comparator `dateA - dateB` is
  specified by ECMAScript to be a stable sort consistent with the comparator;
  since a stable sort's output is unique, it is modelled by a stable
  insertion sort.
-/

namespace Archive

/-- Character class of the regex token \d in `/^(\d+)\s+(\w+)\s+(\d+)\.png$/`:
exactly the ASCII digits 0-9 (code points 48..57). -/
def jsIsDigit (c : Char) : Bool := 48 ≤ c.toNat && c.toNat ≤ 57

/-- Character class of the regex token \s: the full ECMAScript WhiteSpace
and LineTerminator set — TAB, LF, VT, FF, CR, SP, NBSP, U+1680, the Zs run
U+2000..U+200A, LS (U+2028), PS (U+2029), U+202F, U+205F, U+3000 and
ZWNBSP (U+FEFF). -/
def jsIsSpace (c : Char) : Bool :=
  c.toNat = 0x9 || c.toNat = 0xA || c.toNat = 0xB || c.toNat = 0xC ||
  c.toNat = 0xD || c.toNat = 0x20 || c.toNat = 0xA0 || c.toNat = 0x1680 ||
  (0x2000 ≤ c.toNat && c.toNat ≤ 0x200A) || c.toNat = 0x2028 ||
  c.toNat = 0x2029 || c.toNat = 0x202F || c.toNat = 0x205F ||
  c.toNat = 0x3000 || c.toNat = 0xFEFF

/-- Character class of the regex token \w: `[A-Za-z0-9_]` (code points
65..90, 97..122, 48..57 and 95). -/
def jsIsWord (c : Char) : Bool :=
  (65 ≤ c.toNat && c.toNat ≤ 90) || (97 ≤ c.toNat && c.toNat ≤ 122) ||
  (48 ≤ c.toNat && c.toNat ≤ 57) || c.toNat = 95

/-- Trailing `/` separators of a path, which Node's `path.basename` strips
before taking the last component. -/
def dropTrailingSep (cs : List Char) : List Char :=
  (cs.reverse.dropWhile fun c => c = '/').reverse

/-- Model of `path.basename`: strip trailing `/` separators as Node does,
then keep the component after the last remaining separator. -/
def basenameChars (cs : List Char) : List Char :=
  (dropTrailingSep cs).foldl (fun acc c => if c = '/' then [] else acc ++ [c]) []

/-- String-level `path.basename`. -/
def basename (p : String) : String := ⟨basenameChars p.data⟩

/-- Model of `parseInt` on the all-digit capture groups produced by \d+. -/
def parseIntDigits (s : String) : Nat :=
  s.data.foldl (fun n c => n * 10 + (c.toNat - '0'.toNat)) 0

/-- The `months` array of `extractDateFromPath`. -/
def months : List String :=
  ["January", "February", "March", "April", "May", "June",
   "July", "August", "September", "October", "November", "December"]

/-- The regex match `filename.match(/^(\d+)\s+(\w+)\s+(\d+)\.png$/)`,
returning the three capture groups on success.

Because the character classes \d, \s, \w are pairwise disjoint and each
quantified part is followed by a part that can never match a character the
preceding greedy run gave up, the backtracking regex engine's match is
exactly the sequence of maximal runs computed here: each `takeWhile` run must
be nonempty, and after the second digit run the literal `.png` must end the
string. -/
def matchDatePattern (filename : String) : Option (String × String × String) :=
  let cs := filename.data
  let d1 := cs.takeWhile jsIsDigit
  let r1 := cs.dropWhile jsIsDigit
  let s1 := r1.takeWhile jsIsSpace
  let r2 := r1.dropWhile jsIsSpace
  let w := r2.takeWhile jsIsWord
  let r3 := r2.dropWhile jsIsWord
  let s2 := r3.takeWhile jsIsSpace
  let r4 := r3.dropWhile jsIsSpace
  let d2 := r4.takeWhile jsIsDigit
  let r5 := r4.dropWhile jsIsDigit
  if d1.isEmpty || s1.isEmpty || w.isEmpty || s2.isEmpty || d2.isEmpty then none
  else if r5 = ['.', 'p', 'n', 'g'] then some (⟨d1⟩, ⟨w⟩, ⟨d2⟩) else none

/-- JavaScript's `new Date(year, ...)` treats integer years 0..99 as
1900..1999. -/
def yearAdjust (y : Nat) : Int := if y ≤ 99 then 1900 + (y : Int) else (y : Int)

/-- Days from the Unix epoch 1970-01-01 to civil date (year, monthIndex, day)
in the proleptic Gregorian calendar, where `monthIndex` is 0-based (as in
`new Date(year, monthIndex, day)`) and an out-of-range `day` is normalized by
linear day arithmetic, exactly as JavaScript's MakeDay does. -/
def daysFromCivil (y : Int) (monthIndex : Nat) (d : Int) : Int :=
  let m : Int := (monthIndex : Int) + 1
  let yAdj : Int := if m ≤ 2 then y - 1 else y
  let era : Int := yAdj / 400
  let yoe : Int := yAdj - era * 400
  let mp : Int := (m + 9) % 12
  let doy : Int := (153 * mp + 2) / 5 + d - 1
  let doe : Int := yoe * 365 + yoe / 4 - yoe / 100 + doy
  era * 146097 + doe - 719468

/-- Time value of `new Date(year, monthIndex, day)` in milliseconds before
ECMAScript TimeClip, with the local timezone modelled as UTC;
`jsDateMsClipped` below applies the clip that turns out-of-range values into
NaN. -/
def jsDateMs (year : Nat) (monthIndex : Nat) (day : Nat) : Int :=
  daysFromCivil (yearAdjust year) monthIndex (day : Int) * 86400000

/-- Model of ECMAScript TimeClip: time values beyond ±8.64e15 ms become NaN,
modelled as `none`. Within the clip range all JavaScript float arithmetic on
these integers is exact, so the exact-integer value computed here is the
value the program computes. -/
def timeClip (t : Int) : Option Int :=
  if -8640000000000000 ≤ t ∧ t ≤ 8640000000000000 then some t else none

/-- Value of `new Date(year, monthIndex, day).getTime()` with TimeClip
applied: `none` models NaN (years beyond roughly ±275760). -/
def jsDateMsClipped (year : Nat) (monthIndex : Nat) (day : Nat) : Option Int :=
  timeClip (jsDateMs year monthIndex day)

/-- Function `extractDateFromPath` from src/discord.js: parse the basename against the
date pattern; on a match with a recognized month name return the
`new Date(...)` timestamp of the parsed components, otherwise return the
sentinel 0. -/
def extractDateFromPath (filePath : String) : Int :=
  match matchDatePattern (basename filePath) with
  | some (dayStr, monthName, yearStr) =>
    match months.findIdx? (fun m => m == monthName) with
    | some monthIndex => jsDateMs (parseIntDigits yearStr) monthIndex (parseIntDigits dayStr)
    | none => 0
  | none => 0

/-- Clipped date extraction: `extractDateFromPath` with ECMAScript TimeClip
applied to the constructed date. `none` models the NaN sort key the program
gets for dates beyond the representable time range (the sort comparator
treats NaN as a tie); the sentinel for non-matching or unrecognized-month
filenames is the number 0, hence `some 0`. Whenever this yields `some t`,
`extractDateFromPath` (the pre-clip time value used as the sort key
elsewhere in this development) equals `t`. -/
def extractDateClipped (filePath : String) : Option Int :=
  match matchDatePattern (basename filePath) with
  | some (dayStr, monthName, yearStr) =>
    match months.findIdx? (fun m => m == monthName) with
    | some monthIndex =>
      jsDateMsClipped (parseIntDigits yearStr) monthIndex (parseIntDigits dayStr)
    | none => some 0
  | none => some 0

/-- One step of the stable insertion sort modelling
`files.sort((a, b) => extractDateFromPath(a) - extractDateFromPath(b))`:
walk past strictly earlier dates, so that ties keep discovery order. -/
def insertByDate (f : String) : List String → List String
  | [] => [f]
  | g :: gs =>
    if extractDateFromPath g < extractDateFromPath f then g :: insertByDate f gs
    else f :: g :: gs

/-- The sorted work list: stable sort of the discovered files ascending by
`extractDateFromPath`. -/
def sortByDate : List String → List String
  | [] => []
  | f :: fs => insertByDate f (sortByDate fs)

/-- Outcome of one `await sendToDiscord(file, webhookUrl)` call as observed by
the delivery loop: normal return, or a thrown error carrying its message. -/
inductive DeliverOutcome
  | success
  | failure (msg : String)
deriving DecidableEq

/-- Whether a delivery outcome is a success. -/
def isSuccess : DeliverOutcome → Bool
  | .success => true
  | .failure _ => false

/-- Predicate `listStartsWith cs pat` is true when `pat` is an initial segment of
`cs`. -/
def listStartsWith : List Char → List Char → Bool
  | _, [] => true
  | [], _ :: _ => false
  | c :: cs, p :: ps => c = p && listStartsWith cs ps

/-- Model of `String.prototype.includes` on character lists: some suffix of the text
starts with the pattern. -/
def listIncludes (pat : List Char) : List Char → Bool
  | [] => pat.isEmpty
  | c :: cs => listStartsWith (c :: cs) pat || listIncludes pat cs

/-- Model of `s.includes(pat)` for strings. -/
def strIncludes (s pat : String) : Bool := listIncludes pat.data s.data

/-- The delivery loop's rate-limit test:
`error.message.includes('rate limit') || error.message.includes('429')`. -/
def isRateLimitMsg (msg : String) : Bool :=
  strIncludes msg "rate limit" || strIncludes msg "429"

/-- Observable events of one sync run, in order: delivery attempts, their
outcomes, and the sleeps (`setTimeout` waits) the loop performs. -/
inductive Event
  | attempt (file : String)
  | delivered (file : String)
  | failed (file : String) (msg : String)
  | wait (ms : Nat)
deriving DecidableEq

/-- Mutable state of one `sendAllArchives` run: the in-memory `sentFiles`
array, the success and failure counters, the persisted content of the
`.discord-sent.json` log, and the event trace. -/
structure RunState where
  sentFiles : List String
  successCount : Nat
  failCount : Nat
  log : List String
  events : List Event
deriving DecidableEq

/-- State at loop entry: `sentFiles` is the parsed sent-log (empty when the
log file is absent or unparsable), counters are zero, and the persisted log
content coincides with what was loaded. -/
def initState (loadedSent : List String) : RunState :=
  { sentFiles := loadedSent, successCount := 0, failCount := 0,
    log := loadedSent, events := [] }

/-- The `for (let i = 0; i < newFiles.length; i++)` delivery loop of
`sendAllArchives`: on success push the file onto `sentFiles`, bump the
success counter, persist the whole updated list (full overwrite), and sleep
`delayMs` unless this was the last file; on failure bump the failure counter
and, when the error message indicates rate-limiting, sleep 60000 ms. -/
def runLoop (deliver : String → DeliverOutcome) (delayMs : Nat) :
    List String → RunState → RunState
  | [], st => st
  | f :: rest, st =>
    match deliver f with
    | .success =>
      let sent := st.sentFiles ++ [f]
      let st1 : RunState :=
        { sentFiles := sent, successCount := st.successCount + 1,
          failCount := st.failCount, log := sent,
          events := st.events ++ [Event.attempt f, Event.delivered f] ++
            (if rest.isEmpty then [] else [Event.wait delayMs]) }
      runLoop deliver delayMs rest st1
    | .failure msg =>
      let st1 : RunState :=
        { sentFiles := st.sentFiles, successCount := st.successCount,
          failCount := st.failCount + 1, log := st.log,
          events := st.events ++ [Event.attempt f, Event.failed f msg] ++
            (if isRateLimitMsg msg then [Event.wait 60000] else []) }
      runLoop deliver delayMs rest st1

/-- The events one loop iteration appends for file `f`, where `isLast` states
whether `f` is the last element of the work queue. -/
def iterEvents (deliver : String → DeliverOutcome) (delayMs : Nat)
    (isLast : Bool) (f : String) : List Event :=
  match deliver f with
  | .success =>
    [Event.attempt f, Event.delivered f] ++
      (if isLast then [] else [Event.wait delayMs])
  | .failure msg =>
    [Event.attempt f, Event.failed f msg] ++
      (if isRateLimitMsg msg then [Event.wait 60000] else [])

/-- The full event trace the loop appends while processing a queue. -/
def loopEvents (deliver : String → DeliverOutcome) (delayMs : Nat) :
    List String → List Event
  | [] => []
  | f :: rest =>
    iterEvents deliver delayMs rest.isEmpty f ++ loopEvents deliver delayMs rest

/-- The files attempted, read off an event trace in order. -/
def attemptsOf (evs : List Event) : List String :=
  evs.filterMap fun e =>
    match e with
    | .attempt f => some f
    | _ => none

/-- Result of one `sendAllArchives` run: final state, the computed work queue
`newFiles`, the returned value, and the terminal summary line's
(sent, failed) pair. -/
structure RunResult where
  state : RunState
  newFiles : List String
  returnValue : Nat
  summary : Nat × Nat
deriving DecidableEq

/-- Function `sendAllArchives` from src/discord.js (delivery-loop version with
success/failure counters): sort the discovered files by extracted date,
filter out paths recorded in the loaded sent-log, run the delivery loop, and
return the success count, reporting `(successCount, failCount)` in the
terminal summary. The discovered file list and the parsed sent-log stand in
for the `getAllPngFiles(archivesDir)` scan and the `.discord-sent.json`
read. -/
def sendAllArchives (files : List String) (loadedSent : List String)
    (deliver : String → DeliverOutcome) (delayMs : Nat) : RunResult :=
  let sorted := sortByDate files
  let newFiles := sorted.filter fun f => !(loadedSent.contains f)
  let st := runLoop deliver delayMs newFiles (initState loadedSent)
  { state := st, newFiles := newFiles, returnValue := st.successCount,
    summary := (st.successCount, st.failCount) }

/-- A run of `sendAllArchives` killed by external process termination after
`steps` completed loop iterations: only the first `steps` queue entries are
processed, and the state (in particular the persisted log) is whatever the
loop had built by then. -/
def sendAllArchivesInterrupted (files : List String) (loadedSent : List String)
    (deliver : String → DeliverOutcome) (delayMs : Nat) (steps : Nat) : RunState :=
  let sorted := sortByDate files
  let newFiles := sorted.filter fun f => !(loadedSent.contains f)
  runLoop deliver delayMs (newFiles.take steps) (initState loadedSent)

/-- A delivery endpoint that accepts every delivery. -/
def allOk : String → DeliverOutcome := fun _ => DeliverOutcome.success

/-- The work queue `newFiles` a run computes from the discovered files and
the loaded sent-log: sorted candidates minus recorded paths. -/
def workQueue (files loadedSent : List String) : List String :=
  (sortByDate files).filter fun f => !(loadedSent.contains f)

/-- A file-existence oracle for which every path exists. -/
def alwaysExists : String → Bool := fun _ => true

/-- An HTTP response as observed by `sendToDiscord`: status code and body
text. -/
structure HttpResponse where
  status : Nat
  body : String
deriving DecidableEq

/-- Test `response.ok`: status in the inclusive range 200..299. -/
def respOk (r : HttpResponse) : Bool := 200 ≤ r.status && r.status ≤ 299

/-- Result of one `sendToDiscord` call: either a thrown error with its
message, or a normal `true` return. -/
inductive SendOutcome
  | thrown (msg : String)
  | ok
deriving DecidableEq

/-- Observable effect of one `sendToDiscord` call: its outcome and how many
network requests it performed. -/
structure SendTrace where
  outcome : SendOutcome
  requests : Nat
deriving DecidableEq

/-- The error message thrown on a non-2xx response:
`Discord API error (${response.status}): ${errorText}`. -/
def discordErrorMsg (status : Nat) (body : String) : String :=
  "Discord API error (" ++ toString status ++ "): " ++ body

/-- An endpoint whose every delivery fails with the thrown message of an
HTTP 429 response. -/
def always429 : String → DeliverOutcome :=
  fun _ => DeliverOutcome.failure (discordErrorMsg 429 "rate limited")

/-- Function `sendToDiscord(imagePath, webhookUrl)` from src/discord.js: throw a
configuration error before any network request when the webhook URL is
falsy (empty/absent) or the image file does not exist; otherwise perform
exactly one POST and return `true` on a 2xx response, throwing the
status-and-body error otherwise. `fsExists` models `fs.existsSync`, `resp`
the fetch response. -/
def sendToDiscord (fsExists : String → Bool) (imagePath webhookUrl : String)
    (resp : HttpResponse) : SendTrace :=
  if webhookUrl = "" then
    { outcome := SendOutcome.thrown
        "Discord webhook URL is required. Set DISCORD_WEBHOOK_URL environment variable.",
      requests := 0 }
  else if !(fsExists imagePath) then
    { outcome := SendOutcome.thrown ("Image file not found: " ++ imagePath),
      requests := 0 }
  else if respOk resp then
    { outcome := SendOutcome.ok, requests := 1 }
  else
    { outcome := SendOutcome.thrown (discordErrorMsg resp.status resp.body),
      requests := 1 }

/-! ## Structure of the delivery loop -/

/-- The final `sentFiles` array is the initial one followed by exactly the
queue entries whose delivery succeeded, in order. -/
theorem runLoop_sentFiles (d : String → DeliverOutcome) (ms : Nat) :
    ∀ (q : List String) (st : RunState),
      (runLoop d ms q st).sentFiles =
        st.sentFiles ++ q.filter (fun f => isSuccess (d f))
  | [], st => by simp [runLoop]
  | f :: rest, st => by
    cases h : d f with
    | success =>
      simp [runLoop, h, runLoop_sentFiles d ms rest, List.filter_cons, isSuccess]
    | failure msg =>
      simp [runLoop, h, runLoop_sentFiles d ms rest, List.filter_cons, isSuccess]

/-- The persisted log tracks `sentFiles` throughout the loop. -/
theorem runLoop_log (d : String → DeliverOutcome) (ms : Nat) :
    ∀ (q : List String) (st : RunState), st.log = st.sentFiles →
      (runLoop d ms q st).log = (runLoop d ms q st).sentFiles
  | [], st, h => h
  | f :: rest, st, h => by
    cases hf : d f with
    | success => simp [runLoop, hf]; exact runLoop_log d ms rest _ rfl
    | failure msg => simp [runLoop, hf]; exact runLoop_log d ms rest _ h

/-- The success counter counts exactly the successful deliveries of the
queue. -/
theorem runLoop_successCount (d : String → DeliverOutcome) (ms : Nat) :
    ∀ (q : List String) (st : RunState),
      (runLoop d ms q st).successCount =
        st.successCount + (q.filter (fun f => isSuccess (d f))).length
  | [], st => by simp [runLoop]
  | f :: rest, st => by
    cases h : d f with
    | success =>
      simp [runLoop, h, runLoop_successCount d ms rest, List.filter_cons, isSuccess]
      omega
    | failure msg =>
      simp [runLoop, h, runLoop_successCount d ms rest, List.filter_cons, isSuccess]

/-- The failure counter counts exactly the failed deliveries of the queue. -/
theorem runLoop_failCount (d : String → DeliverOutcome) (ms : Nat) :
    ∀ (q : List String) (st : RunState),
      (runLoop d ms q st).failCount =
        st.failCount + (q.filter (fun f => !isSuccess (d f))).length
  | [], st => by simp [runLoop]
  | f :: rest, st => by
    cases h : d f with
    | success =>
      simp [runLoop, h, runLoop_failCount d ms rest, List.filter_cons, isSuccess]
    | failure msg =>
      simp [runLoop, h, runLoop_failCount d ms rest, List.filter_cons, isSuccess]
      omega

/-- The loop appends exactly `loopEvents` to the event trace. -/
theorem runLoop_events (d : String → DeliverOutcome) (ms : Nat) :
    ∀ (q : List String) (st : RunState),
      (runLoop d ms q st).events = st.events ++ loopEvents d ms q
  | [], st => by simp [runLoop, loopEvents]
  | f :: rest, st => by
    cases h : d f with
    | success =>
      simp [runLoop, h, runLoop_events d ms rest, loopEvents, iterEvents]
    | failure msg =>
      simp [runLoop, h, runLoop_events d ms rest, loopEvents, iterEvents]

/-- Map `attemptsOf` distributes over trace concatenation. -/
theorem attemptsOf_append (a b : List Event) :
    attemptsOf (a ++ b) = attemptsOf a ++ attemptsOf b := by
  simp [attemptsOf]

/-- The loop attempts exactly the queue, in order. -/
theorem attemptsOf_loopEvents (d : String → DeliverOutcome) (ms : Nat) :
    ∀ q : List String, attemptsOf (loopEvents d ms q) = q
  | [] => by simp [loopEvents, attemptsOf]
  | f :: rest => by
    rw [loopEvents, attemptsOf_append, attemptsOf_loopEvents d ms rest]
    cases h : d f with
    | success =>
      simp only [iterEvents, h]
      split <;> simp [attemptsOf]
    | failure msg =>
      simp only [iterEvents, h]
      split <;> simp [attemptsOf]

/-! ## Structure of the stable sort -/

/-- Inserting is a permutation-respecting operation. -/
theorem insertByDate_perm (f : String) : ∀ l, List.Perm (insertByDate f l) (f :: l)
  | [] => by simp [insertByDate]
  | g :: gs => by
    rw [insertByDate]
    split
    · exact ((insertByDate_perm f gs).cons g).trans (List.Perm.swap f g gs)
    · exact List.Perm.refl _

/-- The sorted work list is a permutation of the discovered files. -/
theorem sortByDate_perm : ∀ l : List String, List.Perm (sortByDate l) l
  | [] => List.Perm.refl _
  | f :: fs => (insertByDate_perm f (sortByDate fs)).trans ((sortByDate_perm fs).cons f)

/-- Insertion preserves sortedness by extracted date. -/
theorem insertByDate_sorted (f : String) : ∀ l : List String,
    l.Pairwise (fun a b => extractDateFromPath a ≤ extractDateFromPath b) →
    (insertByDate f l).Pairwise (fun a b => extractDateFromPath a ≤ extractDateFromPath b)
  | [], _ => by simp [insertByDate]
  | g :: gs, h => by
    rw [insertByDate]
    rcases List.pairwise_cons.mp h with ⟨hg, hgs⟩
    split
    · rename_i hlt
      refine List.pairwise_cons.mpr ⟨?_, insertByDate_sorted f gs hgs⟩
      intro x hx
      rcases List.mem_cons.mp ((insertByDate_perm f gs).mem_iff.mp hx) with rfl | hxgs
      · exact le_of_lt hlt
      · exact hg x hxgs
    · rename_i hnlt
      refine List.pairwise_cons.mpr ⟨?_, h⟩
      intro x hx
      rcases List.mem_cons.mp hx with rfl | hxgs
      · exact not_lt.mp hnlt
      · exact le_trans (not_lt.mp hnlt) (hg x hxgs)

/-- The work list is sorted ascending by extracted date. -/
theorem sortByDate_sorted : ∀ l : List String,
    (sortByDate l).Pairwise (fun a b => extractDateFromPath a ≤ extractDateFromPath b)
  | [] => List.Pairwise.nil
  | f :: fs => insertByDate_sorted f (sortByDate fs) (sortByDate_sorted fs)

/-! ## Character classes and regex-match facts -/

/-- No code point is both a whitespace character and a digit. -/
theorem not_space_and_digit (c : Char) (hs : jsIsSpace c = true)
    (hd : jsIsDigit c = true) : False := by
  simp only [jsIsSpace, Bool.or_eq_true, Bool.and_eq_true,
    decide_eq_true_eq] at hs
  simp only [jsIsDigit, Bool.and_eq_true, decide_eq_true_eq] at hd
  omega

/-- Whitespace characters are not digits. -/
theorem space_not_digit {c : Char} (h : jsIsSpace c = true) : jsIsDigit c = false := by
  cases hd : jsIsDigit c
  · rfl
  · exact (not_space_and_digit c h hd).elim

/-- Digits are not whitespace. -/
theorem digit_not_space {c : Char} (h : jsIsDigit c = true) : jsIsSpace c = false := by
  cases hs : jsIsSpace c
  · rfl
  · exact (not_space_and_digit c hs h).elim

/-- Word characters are never the path separator. -/
theorem word_ne_slash {c : Char} (h : jsIsWord c = true) : ¬ c = '/' := by
  intro hc
  subst hc
  exact absurd h (by decide)

/-- Digit characters are never the path separator. -/
theorem digit_ne_slash {c : Char} (h : jsIsDigit c = true) : ¬ c = '/' := by
  intro hc
  subst hc
  exact absurd h (by decide)

/-- A greedy character-class run over `l ++ c :: r` where every character of
`l` is in the class and `c` is not: the run is exactly `l`. -/
theorem takeWhile_app (p : Char → Bool) :
    ∀ (l : List Char) (c : Char) (r : List Char),
      (∀ x ∈ l, p x = true) → p c = false →
      (l ++ c :: r).takeWhile p = l ∧ (l ++ c :: r).dropWhile p = c :: r
  | [], c, r, _, hc => by simp [List.takeWhile_cons, List.dropWhile_cons, hc]
  | a :: l, c, r, hl, hc => by
    have ha : p a = true := hl a (by simp)
    have ih := takeWhile_app p l c r (fun x hx => hl x (by simp [hx])) hc
    simp [List.takeWhile_cons, List.dropWhile_cons, ha, ih.1, ih.2]

/-- Folding the basename accumulator over separator-free characters appends
them all. -/
theorem basenameChars_aux :
    ∀ (cs acc : List Char), (∀ c ∈ cs, ¬ c = '/') →
      cs.foldl (fun acc c => if c = '/' then [] else acc ++ [c]) acc = acc ++ cs
  | [], acc, _ => by simp
  | c :: cs, acc, h => by
    have hc : ¬ c = '/' := h c (by simp)
    rw [List.foldl_cons, if_neg hc,
      basenameChars_aux cs (acc ++ [c]) (fun x hx => h x (by simp [hx]))]
    simp

/-- Stripping trailing separators from a separator-free character list is
the identity. -/
theorem dropTrailingSep_eq_self (cs : List Char) (h : ∀ c ∈ cs, ¬ c = '/') :
    dropTrailingSep cs = cs := by
  unfold dropTrailingSep
  cases hrev : cs.reverse with
  | nil =>
    have hcs : cs = [] := by
      have := congrArg List.reverse hrev
      simpa using this
    rw [hcs]
    rfl
  | cons a l =>
    have ha : a ∈ cs := by
      have hmem : a ∈ cs.reverse := by
        rw [hrev]
        exact List.mem_cons_self a l
      exact List.mem_reverse.mp hmem
    have h2 : cs = (a :: l).reverse := by
      rw [← hrev, List.reverse_reverse]
    rw [List.dropWhile_cons, if_neg (by simp [h a ha]), ← h2]

/-- Applying `path.basename` to a separator-free path is the path itself. -/
theorem basename_eq_self (s : String) (h : ∀ c ∈ s.data, ¬ c = '/') :
    basename s = s := by
  have h1 : basenameChars s.data = s.data := by
    rw [basenameChars, dropTrailingSep_eq_self s.data h]
    exact basenameChars_aux s.data [] h
  simp [basename, h1]

/-- Every month name is a nonempty word-character string. -/
theorem months_facts :
    ∀ m ∈ months, m.data ≠ [] ∧
      ∀ c ∈ m.data, jsIsWord c = true ∧ jsIsSpace c = false := by decide

/-- Looking a month name up in the `months` array finds its own index. -/
theorem months_findIdx_self :
    ∀ i : Fin months.length,
      months.findIdx? (fun x => x == months.get i) = some i.val := by decide

/-- The regex match succeeds on every rendered
`<digits> <month-word> <digits>.png` filename, capturing the three
components. -/
theorem matchDatePattern_render (dstr mstr ystr : String)
    (hd : dstr.data ≠ []) (hdall : ∀ c ∈ dstr.data, jsIsDigit c = true)
    (hm : mstr.data ≠ [])
    (hmall : ∀ c ∈ mstr.data, jsIsWord c = true ∧ jsIsSpace c = false)
    (hy : ystr.data ≠ []) (hyall : ∀ c ∈ ystr.data, jsIsDigit c = true) :
    matchDatePattern (dstr ++ " " ++ mstr ++ " " ++ ystr ++ ".png")
      = some (dstr, mstr, ystr) := by
  obtain ⟨dc, dtl, hd'⟩ : ∃ a l, dstr.data = a :: l := by
    cases hds : dstr.data with
    | nil => exact absurd hds hd
    | cons a l => exact ⟨a, l, rfl⟩
  obtain ⟨mc, mtl, hm'⟩ : ∃ a l, mstr.data = a :: l := by
    cases hms : mstr.data with
    | nil => exact absurd hms hm
    | cons a l => exact ⟨a, l, rfl⟩
  obtain ⟨yc, ytl, hy'⟩ : ∃ a l, ystr.data = a :: l := by
    cases hys : ystr.data with
    | nil => exact absurd hys hy
    | cons a l => exact ⟨a, l, rfl⟩
  have hdall' : ∀ c ∈ dc :: dtl, jsIsDigit c = true := hd' ▸ hdall
  have hmall' : ∀ c ∈ mc :: mtl, jsIsWord c = true ∧ jsIsSpace c = false :=
    hm' ▸ hmall
  have hyall' : ∀ c ∈ yc :: ytl, jsIsDigit c = true := hy' ▸ hyall
  have hfull : (dstr ++ " " ++ mstr ++ " " ++ ystr ++ ".png").data
      = (dc :: dtl) ++ ' ' ::
          ((mc :: mtl) ++ ' ' :: ((yc :: ytl) ++ ['.', 'p', 'n', 'g'])) := by
    have h1 : (" " : String).data = [' '] := rfl
    have h2 : (".png" : String).data = ['.', 'p', 'n', 'g'] := rfl
    simp [String.data_append, h1, h2, hd', hm', hy']
  have e1 := takeWhile_app jsIsDigit (dc :: dtl) ' '
    ((mc :: mtl) ++ ' ' :: ((yc :: ytl) ++ ['.', 'p', 'n', 'g']))
    hdall' (by decide)
  have hspace : jsIsSpace ' ' = true := by decide
  have hmcsp : jsIsSpace mc = false := (hmall' mc (by simp)).2
  have e2a : ((' ' :: ((mc :: mtl) ++ ' ' ::
      ((yc :: ytl) ++ ['.', 'p', 'n', 'g'])))).takeWhile jsIsSpace = [' '] := by
    simp [List.takeWhile_cons, hspace, hmcsp]
  have e2b : ((' ' :: ((mc :: mtl) ++ ' ' ::
      ((yc :: ytl) ++ ['.', 'p', 'n', 'g'])))).dropWhile jsIsSpace
      = (mc :: mtl) ++ ' ' :: ((yc :: ytl) ++ ['.', 'p', 'n', 'g']) := by
    simp [List.dropWhile_cons, hspace, hmcsp]
  have e3 := takeWhile_app jsIsWord (mc :: mtl) ' '
    ((yc :: ytl) ++ ['.', 'p', 'n', 'g'])
    (fun c hc => (hmall' c hc).1) (by decide)
  have hycsp : jsIsSpace yc = false := digit_not_space (hyall' yc (by simp))
  have e4a : ((' ' :: ((yc :: ytl) ++ ['.', 'p', 'n', 'g']))).takeWhile jsIsSpace
      = [' '] := by
    simp [List.takeWhile_cons, hspace, hycsp]
  have e4b : ((' ' :: ((yc :: ytl) ++ ['.', 'p', 'n', 'g']))).dropWhile jsIsSpace
      = (yc :: ytl) ++ ['.', 'p', 'n', 'g'] := by
    simp [List.dropWhile_cons, hspace, hycsp]
  have e5 := takeWhile_app jsIsDigit (yc :: ytl) '.' ['p', 'n', 'g']
    hyall' (by decide)
  simp only [matchDatePattern]
  rw [hfull, e1.1, e1.2, e2a, e2b, e3.1, e3.2, e4a, e4b, e5.1, e5.2]
  simp only [List.isEmpty_cons, Bool.or_self, Bool.or_false, Bool.false_or,
    if_false, Bool.false_eq_true, if_neg (by simp : ¬ false = true)]
  rw [if_pos trivial, ← hd', ← hm', ← hy']

/-- A rendered `<digits> <Month> <digits>.png` filename contains no path
separator. -/
theorem render_no_slash (dstr ystr : String) (i : Fin months.length)
    (hdall : ∀ c ∈ dstr.data, jsIsDigit c = true)
    (hyall : ∀ c ∈ ystr.data, jsIsDigit c = true) :
    ∀ c ∈ (dstr ++ " " ++ months.get i ++ " " ++ ystr ++ ".png").data,
      ¬ c = '/' := by
  have hmonth := months_facts (months.get i)
    (by simpa using List.get_mem months i.1 i.2)
  have h1 : (" " : String).data = [' '] := rfl
  have h2 : (".png" : String).data = ['.', 'p', 'n', 'g'] := rfl
  intro c hc
  simp only [String.data_append, h1, h2, List.mem_append, List.mem_cons,
    List.mem_singleton, List.not_mem_nil, or_false] at hc
  rcases hc with ((((hc | hc) | hc) | hc) | hc) | hc | hc | hc | hc
  · exact digit_ne_slash (hdall c hc)
  · subst hc; decide
  · exact word_ne_slash (hmonth.2 c hc).1
  · subst hc; decide
  · exact digit_ne_slash (hyall c hc)
  · subst hc; decide
  · subst hc; decide
  · subst hc; decide
  · subst hc; decide

/-- Evaluating `extractDateFromPath` on a rendered `<digits> <Month> <digits>.png`
filename returns the pre-clip `new Date(...)` time value of the parsed
components. -/
theorem extractDateFromPath_render (dstr ystr : String) (i : Fin months.length)
    (hd : dstr.data ≠ []) (hdall : ∀ c ∈ dstr.data, jsIsDigit c = true)
    (hy : ystr.data ≠ []) (hyall : ∀ c ∈ ystr.data, jsIsDigit c = true) :
    extractDateFromPath (dstr ++ " " ++ months.get i ++ " " ++ ystr ++ ".png")
      = jsDateMs (parseIntDigits ystr) i.val (parseIntDigits dstr) := by
  have hmonth := months_facts (months.get i)
    (by simpa using List.get_mem months i.1 i.2)
  have hnoslash := render_no_slash dstr ystr i hdall hyall
  simp only [extractDateFromPath, basename_eq_self _ hnoslash,
    matchDatePattern_render dstr (months.get i) ystr hd hdall hmonth.1
      hmonth.2 hy hyall, months_findIdx_self i]

/-- Evaluating `extractDateClipped` on a rendered
`<digits> <Month> <digits>.png` filename returns the TimeClip-ed
`new Date(...).getTime()` value of the parsed components. -/
theorem extractDateClipped_render (dstr ystr : String) (i : Fin months.length)
    (hd : dstr.data ≠ []) (hdall : ∀ c ∈ dstr.data, jsIsDigit c = true)
    (hy : ystr.data ≠ []) (hyall : ∀ c ∈ ystr.data, jsIsDigit c = true) :
    extractDateClipped (dstr ++ " " ++ months.get i ++ " " ++ ystr ++ ".png")
      = jsDateMsClipped (parseIntDigits ystr) i.val (parseIntDigits dstr) := by
  have hmonth := months_facts (months.get i)
    (by simpa using List.get_mem months i.1 i.2)
  have hnoslash := render_no_slash dstr ystr i hdall hyall
  simp only [extractDateClipped, basename_eq_self _ hnoslash,
    matchDatePattern_render dstr (months.get i) ystr hd hdall hmonth.1
      hmonth.2 hy hyall, months_findIdx_self i]

/-- Whenever the clipped extraction yields a number, the pre-clip sort key
equals it. -/
theorem extractDateClipped_agrees (s : String) (t : Int)
    (h : extractDateClipped s = some t) : extractDateFromPath s = t := by
  rw [extractDateClipped] at h
  rw [extractDateFromPath]
  cases hm : matchDatePattern (basename s) with
  | none =>
    simp only [hm, Option.some.injEq] at h
    simp only [hm]
    exact h
  | some v =>
    obtain ⟨dayStr, monthName, yearStr⟩ := v
    cases hi : months.findIdx? (fun m => m == monthName) with
    | none =>
      simp only [hm, hi, Option.some.injEq] at h
      simp only [hm, hi]
      exact h
    | some idx =>
      simp only [hm, hi] at h
      simp only [hm, hi]
      rw [jsDateMsClipped, timeClip] at h
      split at h
      · simp only [Option.some.injEq] at h
        exact h
      · exact absurd h (by simp)

/-- Any valid date with year at least 1971 lies strictly after the Unix
epoch. -/
theorem jsDateMs_pos (y mi d : Nat)
    (hy : 1971 ≤ y) (hm : mi < 12) (hd : 1 ≤ d) : 0 < jsDateMs y mi d := by
  have hya : yearAdjust y = (y : Int) := by
    unfold yearAdjust
    rw [if_neg (by omega)]
  have h : 0 < daysFromCivil (yearAdjust y) mi d := by
    rw [hya]
    unfold daysFromCivil
    dsimp only
    split <;> omega
  have : jsDateMs y mi d = daysFromCivil (yearAdjust y) mi d * 86400000 := rfl
  rw [this]
  exact mul_pos h (by norm_num)

/-- Whenever the clipped date of a year-1971-or-later valid date is a number
(not NaN), that number is strictly positive. -/
theorem jsDateMsClipped_pos (y mi d : Nat) (t : Int)
    (hy : 1971 ≤ y) (hm : mi < 12) (hd : 1 ≤ d)
    (h : jsDateMsClipped y mi d = some t) : 0 < t := by
  rw [jsDateMsClipped, timeClip] at h
  split at h
  · simp only [Option.some.injEq] at h
    rw [← h]
    exact jsDateMs_pos y mi d hy hm hd
  · exact absurd h (by simp)

/-! ## Correctness of the `includes` model -/

/-- Boolean `listStartsWith` decides the initial-segment relation. -/
theorem listStartsWith_iff :
    ∀ cs pat : List Char, listStartsWith cs pat = true ↔ ∃ t, cs = pat ++ t
  | cs, [] => by simp [listStartsWith]
  | [], p :: ps => by simp [listStartsWith]
  | c :: cs, p :: ps => by
    rw [listStartsWith]
    simp only [Bool.and_eq_true, decide_eq_true_eq, listStartsWith_iff cs ps]
    constructor
    · rintro ⟨rfl, t, rfl⟩
      exact ⟨t, rfl⟩
    · rintro ⟨t, ht⟩
      rw [List.cons_append] at ht
      cases ht
      exact ⟨rfl, t, rfl⟩

/-- Boolean `listIncludes` decides the contiguous-substring relation. -/
theorem listIncludes_iff :
    ∀ (pat cs : List Char),
      listIncludes pat cs = true ↔ ∃ l r, cs = l ++ pat ++ r
  | pat, [] => by
    rw [listIncludes]
    cases pat <;> simp
  | pat, c :: cs => by
    rw [listIncludes]
    simp only [Bool.or_eq_true, listStartsWith_iff, listIncludes_iff pat cs]
    constructor
    · rintro (⟨t, ht⟩ | ⟨l, r, rfl⟩)
      · exact ⟨[], t, by simp [ht]⟩
      · exact ⟨c :: l, r, by simp⟩
    · rintro ⟨l, r, hl⟩
      cases l with
      | nil =>
        exact Or.inl ⟨r, by simpa using hl⟩
      | cons a l =>
        rw [List.cons_append, List.cons_append] at hl
        cases hl
        exact Or.inr ⟨l, r, rfl⟩

/-- Test `s.includes(pat)` holds exactly when `pat` occurs contiguously in `s`. -/
theorem strIncludes_iff (s pat : String) :
    strIncludes s pat = true ↔ ∃ l r, s.data = l ++ pat.data ++ r :=
  listIncludes_iff pat.data s.data

/-! ## Run-level helper facts -/

/-- Test `l.contains a` agrees with list membership. -/
theorem contains_iff (l : List String) (a : String) :
    l.contains a = true ↔ a ∈ l := List.elem_iff

/-- With an empty sent-log, the filter keeps every file. -/
theorem filter_contains_nil (l : List String) :
    (l.filter fun f => !(([] : List String).contains f)) = l :=
  List.filter_eq_self.mpr (fun _ _ => rfl)

/-- Filtering a duplicate-free list against its own first `N` elements
leaves exactly the remainder. -/
theorem filter_not_contains_take (l : List String) (N : Nat) (h : l.Nodup) :
    (l.filter fun f => !((l.take N).contains f)) = l.drop N := by
  have key : (l.filter fun f => !((l.take N).contains f))
      = ((l.take N ++ l.drop N).filter fun f => !((l.take N).contains f)) := by
    rw [List.take_append_drop]
  have hnodup : (l.take N ++ l.drop N).Nodup := by
    rw [List.take_append_drop]
    exact h
  have hdisj := (List.nodup_append.mp hnodup).2.2
  rw [key, List.filter_append]
  have h1 : ((l.take N).filter fun f => !((l.take N).contains f)) = [] := by
    rw [List.filter_eq_nil_iff]
    intro a ha
    have hc : (l.take N).contains a = true := (contains_iff _ a).mpr ha
    simp [hc, ha]
  have h2 : ((l.drop N).filter fun f => !((l.take N).contains f)) = l.drop N := by
    rw [List.filter_eq_self]
    intro a ha
    have hat : a ∉ l.take N := fun hmem => hdisj hmem ha
    have hc : (l.take N).contains a = false := by
      cases hcc : (l.take N).contains a
      · rfl
      · exact absurd ((contains_iff _ a).mp hcc) hat
    rw [hc]
    rfl
  rw [h1, h2, List.nil_append]

/-- Unfolding `sendAllArchives` to its final state. -/
theorem sendAllArchives_state (files L : List String)
    (d : String → DeliverOutcome) (ms : Nat) :
    (sendAllArchives files L d ms).state
      = runLoop d ms ((sortByDate files).filter fun f => !(L.contains f))
          (initState L) := rfl

/-- Unfolding `sendAllArchives` to its work queue. -/
theorem sendAllArchives_newFiles (files L : List String)
    (d : String → DeliverOutcome) (ms : Nat) :
    (sendAllArchives files L d ms).newFiles
      = ((sortByDate files).filter fun f => !(L.contains f)) := rfl

/-- The returned value is the final success counter. -/
theorem sendAllArchives_returnValue (files L : List String)
    (d : String → DeliverOutcome) (ms : Nat) :
    (sendAllArchives files L d ms).returnValue
      = (sendAllArchives files L d ms).state.successCount := rfl

/-- The summary line reports the two final counters. -/
theorem sendAllArchives_summary (files L : List String)
    (d : String → DeliverOutcome) (ms : Nat) :
    (sendAllArchives files L d ms).summary
      = ((sendAllArchives files L d ms).state.successCount,
         (sendAllArchives files L d ms).state.failCount) := rfl

/-- Unfolding an interrupted run. -/
theorem sendAllArchivesInterrupted_eq (files L : List String)
    (d : String → DeliverOutcome) (ms steps : Nat) :
    sendAllArchivesInterrupted files L d ms steps
      = runLoop d ms
          (((sortByDate files).filter fun f => !(L.contains f)).take steps)
          (initState L) := rfl

/-- A success-only delivery function records every processed file. -/
theorem filter_isSuccess_allOk (q : List String) :
    (q.filter fun f => isSuccess (allOk f)) = q :=
  List.filter_eq_self.mpr (fun _ _ => rfl)

/-- The run's `newFiles` is the work queue. -/
theorem sendAllArchives_workQueue (files L : List String)
    (d : String → DeliverOutcome) (ms : Nat) :
    (sendAllArchives files L d ms).newFiles = workQueue files L := rfl

/-- Membership in the work queue excludes the loaded sent-log. -/
theorem workQueue_not_mem_loaded {files L : List String} {f : String}
    (h : f ∈ workQueue files L) : f ∉ L := by
  intro hmem
  have hp := (List.mem_filter.mp h).2
  rw [(contains_iff L f).mpr hmem] at hp
  exact absurd hp (by simp)

/-- The work queue of a duplicate-free discovery is duplicate-free. -/
theorem workQueue_nodup {files : List String} (L : List String)
    (h : files.Nodup) : (workQueue files L).Nodup :=
  List.Nodup.filter _ ((sortByDate_perm files).symm.nodup h)

/-! ## The claims -/

/-- C3: for every set of discovered files, in every discovery order, the run
attempts deliveries in ascending order of the date extracted from each
filename: the attempted files are exactly the work queue, the work queue is
pairwise ordered by `extractDateFromPath`, and it is a permutation of the
unsent discovered files (so any discovery order yields the same attempted
set). -/
theorem claim_C3_ordering (files L : List String)
    (d : String → DeliverOutcome) (ms : Nat) :
    attemptsOf (sendAllArchives files L d ms).state.events
      = (sendAllArchives files L d ms).newFiles ∧
    List.Pairwise (fun a b => extractDateFromPath a ≤ extractDateFromPath b)
      (sendAllArchives files L d ms).newFiles ∧
    List.Perm (sendAllArchives files L d ms).newFiles
      (files.filter fun f => !(L.contains f)) := by
  refine ⟨?_, ?_, ?_⟩
  · rw [sendAllArchives_state, sendAllArchives_newFiles, runLoop_events]
    simp [initState, attemptsOf_loopEvents]
  · rw [sendAllArchives_newFiles]
    exact List.Pairwise.filter _ (sortByDate_sorted files)
  · rw [sendAllArchives_newFiles]
    exact List.Perm.filter _ (sortByDate_perm files)

/-- C8: the run reports the counts of succeeded and failed deliveries in its
summary, returns the success count, the counters count exactly the
successful and the failed queue entries, and the concrete two-file scenario
delivers both files in date order with summary (2, 0). -/
theorem claim_C8_report (files L : List String)
    (d : String → DeliverOutcome) (ms : Nat) :
    (sendAllArchives files L d ms).returnValue
      = (sendAllArchives files L d ms).state.successCount ∧
    (sendAllArchives files L d ms).summary
      = ((sendAllArchives files L d ms).state.successCount,
         (sendAllArchives files L d ms).state.failCount) ∧
    (sendAllArchives files L d ms).state.successCount
      = ((sendAllArchives files L d ms).newFiles.filter
          fun f => isSuccess (d f)).length ∧
    (sendAllArchives files L d ms).state.failCount
      = ((sendAllArchives files L d ms).newFiles.filter
          fun f => !isSuccess (d f)).length ∧
    (sendAllArchives
      ["archives/2025/December/10 December 2025.png",
       "archives/2025/December/9 December 2025.png"] [] allOk 2000).summary
      = (2, 0) ∧
    (sendAllArchives
      ["archives/2025/December/10 December 2025.png",
       "archives/2025/December/9 December 2025.png"] [] allOk 2000).state.log
      = ["archives/2025/December/9 December 2025.png",
         "archives/2025/December/10 December 2025.png"] := by
  refine ⟨rfl, rfl, ?_, ?_, by decide, by decide⟩
  · rw [sendAllArchives_state, sendAllArchives_newFiles, runLoop_successCount]
    simp [initState]
  · rw [sendAllArchives_state, sendAllArchives_newFiles, runLoop_failCount]
    simp [initState]

/-- C2: with an endpoint that accepts all deliveries and no files added
between runs, a second run right after a first one has an empty work queue,
returns 0, and reports a (0, 0) success/failure summary. -/
theorem claim_C2_idempotence (files L : List String)
    (d1 d2 : String → DeliverOutcome) (ms1 ms2 : Nat)
    (h : ∀ f, d1 f = DeliverOutcome.success) :
    (sendAllArchives files (sendAllArchives files L d1 ms1).state.log
        d2 ms2).newFiles = [] ∧
    (sendAllArchives files (sendAllArchives files L d1 ms1).state.log
        d2 ms2).returnValue = 0 ∧
    (sendAllArchives files (sendAllArchives files L d1 ms1).state.log
        d2 ms2).summary = (0, 0) := by
  have hlog : (sendAllArchives files L d1 ms1).state.log
      = L ++ ((sortByDate files).filter fun f => !(L.contains f)) := by
    rw [sendAllArchives_state, runLoop_log d1 ms1 _ _ rfl, runLoop_sentFiles]
    have hall : (((sortByDate files).filter fun f => !(L.contains f)).filter
        fun f => isSuccess (d1 f))
        = ((sortByDate files).filter fun f => !(L.contains f)) :=
      List.filter_eq_self.mpr (fun a _ => by rw [h a]; rfl)
    rw [hall]
    simp [initState]
  have hempty : (sendAllArchives files
      (sendAllArchives files L d1 ms1).state.log d2 ms2).newFiles = [] := by
    rw [sendAllArchives_newFiles, hlog, List.filter_eq_nil_iff]
    intro a ha
    have hmem : a ∈ L ++ ((sortByDate files).filter fun f => !(L.contains f)) := by
      by_cases haL : a ∈ L
      · exact List.mem_append.mpr (Or.inl haL)
      · refine List.mem_append.mpr (Or.inr (List.mem_filter.mpr ⟨ha, ?_⟩))
        have hc : L.contains a = false := by
          cases hcc : L.contains a
          · rfl
          · exact absurd ((contains_iff L a).mp hcc) haL
        rw [hc]
        rfl
    have hc := (contains_iff _ a).mpr hmem
    rw [hc]
    simp
  refine ⟨hempty, ?_, ?_⟩
  · rw [sendAllArchives_returnValue, sendAllArchives_state]
    rw [sendAllArchives_newFiles] at hempty
    rw [hempty]
    rfl
  · rw [sendAllArchives_summary, sendAllArchives_state]
    rw [sendAllArchives_newFiles] at hempty
    rw [hempty]
    rfl

/-- Witness for C2 at a concrete archive and an all-accepting endpoint. -/
theorem claim_C2_witness :
    (sendAllArchives ["a/1 January 2024.png"]
      (sendAllArchives ["a/1 January 2024.png"] [] allOk 0).state.log
      allOk 0).summary = (0, 0) :=
  (claim_C2_idempotence ["a/1 January 2024.png"] [] allOk allOk 0 0
    (fun _ => rfl)).2.2

/-- C4: when delivery of a queued file fails, the run still attempts the
whole queue, the failed file is recorded neither in the in-memory sent list
nor in the persisted log, and the failure only increments the failure
counter — it never aborts the run. -/
theorem claim_C4_failure_tolerance (files L : List String)
    (d : String → DeliverOutcome) (ms : Nat) (f msg : String)
    (hf : f ∈ (sendAllArchives files L d ms).newFiles)
    (hfail : d f = DeliverOutcome.failure msg) :
    attemptsOf (sendAllArchives files L d ms).state.events
      = (sendAllArchives files L d ms).newFiles ∧
    f ∉ (sendAllArchives files L d ms).state.sentFiles ∧
    f ∉ (sendAllArchives files L d ms).state.log ∧
    1 ≤ (sendAllArchives files L d ms).state.failCount := by
  have hfQ : f ∈ workQueue files L := by
    rw [sendAllArchives_workQueue] at hf
    exact hf
  have hfL : f ∉ L := workQueue_not_mem_loaded hfQ
  have hsent : (sendAllArchives files L d ms).state.sentFiles
      = L ++ ((workQueue files L).filter fun g => isSuccess (d g)) := by
    rw [sendAllArchives_state, runLoop_sentFiles]
    simp [initState, workQueue]
  have hnot : f ∉ (sendAllArchives files L d ms).state.sentFiles := by
    rw [hsent]
    intro hmem
    rcases List.mem_append.mp hmem with hL | hFil
    · exact hfL hL
    · have hs := (List.mem_filter.mp hFil).2
      rw [hfail] at hs
      exact absurd hs (by simp [isSuccess])
  refine ⟨?_, hnot, ?_, ?_⟩
  · rw [sendAllArchives_state, sendAllArchives_newFiles, runLoop_events]
    simp [initState, attemptsOf_loopEvents]
  · have hlog : (sendAllArchives files L d ms).state.log
        = (sendAllArchives files L d ms).state.sentFiles := by
      rw [sendAllArchives_state]
      exact runLoop_log d ms _ _ rfl
    rw [hlog]
    exact hnot
  · rw [sendAllArchives_state, runLoop_failCount]
    have hmemf : f ∈ (((sortByDate files).filter fun g => !(L.contains g)).filter
        fun g => !isSuccess (d g)) := by
      refine List.mem_filter.mpr ⟨?_, by rw [hfail]; rfl⟩
      exact hfQ
    have hlen := List.length_pos.mpr (List.ne_nil_of_mem hmemf)
    simp only [initState]
    omega

/-- Witness for C4: a single file whose delivery fails with a 429 error. -/
theorem claim_C4_witness :
    1 ≤ (sendAllArchives ["a.png"] [] always429 7).state.failCount :=
  (claim_C4_failure_tolerance ["a.png"] [] always429 7 "a.png"
    (discordErrorMsg 429 "rate limited") (by decide) rfl).2.2.2

/-- C1: if a run over a fresh log with an all-accepting endpoint is
interrupted after `N` successful deliveries, a restarted run over the same
archive computes exactly the remaining files as its queue (the sorted list
minus its first `N` entries, `M − N` files), attempts exactly those, and
never re-attempts any recorded file. -/
theorem claim_C1_resume (files : List String) (d2 : String → DeliverOutcome)
    (ms1 ms2 N : Nat) (hnd : files.Nodup) (hN : N ≤ files.length) :
    (sendAllArchives files (sendAllArchivesInterrupted files [] allOk ms1 N).log
        d2 ms2).newFiles = (sortByDate files).drop N ∧
    (sendAllArchives files (sendAllArchivesInterrupted files [] allOk ms1 N).log
        d2 ms2).newFiles.length = files.length - N ∧
    attemptsOf (sendAllArchives files
        (sendAllArchivesInterrupted files [] allOk ms1 N).log d2 ms2).state.events
      = (sendAllArchives files
          (sendAllArchivesInterrupted files [] allOk ms1 N).log d2 ms2).newFiles ∧
    ∀ f ∈ (sendAllArchivesInterrupted files [] allOk ms1 N).log,
      f ∉ (sendAllArchives files
          (sendAllArchivesInterrupted files [] allOk ms1 N).log d2 ms2).newFiles := by
  have hsortnd : (sortByDate files).Nodup := (sortByDate_perm files).symm.nodup hnd
  have hlog : (sendAllArchivesInterrupted files [] allOk ms1 N).log
      = (sortByDate files).take N := by
    rw [sendAllArchivesInterrupted_eq, runLoop_log allOk ms1 _ _ rfl,
      runLoop_sentFiles, filter_contains_nil, filter_isSuccess_allOk]
    simp [initState]
  have hnew : (sendAllArchives files
      (sendAllArchivesInterrupted files [] allOk ms1 N).log d2 ms2).newFiles
      = (sortByDate files).drop N := by
    rw [sendAllArchives_newFiles, hlog, filter_not_contains_take _ _ hsortnd]
  refine ⟨hnew, ?_, ?_, ?_⟩
  · rw [hnew, List.length_drop, (sortByDate_perm files).length_eq]
  · rw [sendAllArchives_state, sendAllArchives_newFiles, runLoop_events]
    simp [initState, attemptsOf_loopEvents]
  · intro f hfl hfnew
    rw [hlog] at hfl
    rw [hnew] at hfnew
    have hnodup2 : ((sortByDate files).take N ++ (sortByDate files).drop N).Nodup := by
      rw [List.take_append_drop]
      exact hsortnd
    exact (List.nodup_append.mp hnodup2).2.2 hfl hfnew

/-- Witness for C1: two files, interruption after the first delivery. -/
theorem claim_C1_witness :
    (sendAllArchives ["a/2 January 2024.png", "a/1 January 2024.png"]
        (sendAllArchivesInterrupted
          ["a/2 January 2024.png", "a/1 January 2024.png"] [] allOk 0 1).log
        allOk 0).newFiles
      = (sortByDate ["a/2 January 2024.png", "a/1 January 2024.png"]).drop 1 :=
  (claim_C1_resume ["a/2 January 2024.png", "a/1 January 2024.png"] allOk 0 0 1
    (by decide) (by decide)).1

/-- C9: starting from duplicate-free loaded state, after any number of loop
iterations the in-memory sent list is duplicate-free, the persisted log
always equals it (each success persists the whole updated list), the loaded
paths are never removed, and the sent list only grows from one iteration to
the next; the full run is the loop run to the queue's full length. -/
theorem claim_C9_invariant (files L : List String)
    (d : String → DeliverOutcome) (ms k : Nat)
    (hL : L.Nodup) (hfiles : files.Nodup) :
    (sendAllArchives files L d ms).state
      = runLoop d ms ((workQueue files L).take (workQueue files L).length)
          (initState L) ∧
    (runLoop d ms ((workQueue files L).take k) (initState L)).sentFiles.Nodup ∧
    (runLoop d ms ((workQueue files L).take k) (initState L)).log
      = (runLoop d ms ((workQueue files L).take k) (initState L)).sentFiles ∧
    (∀ x ∈ L,
      x ∈ (runLoop d ms ((workQueue files L).take k) (initState L)).sentFiles) ∧
    (∀ x ∈ (runLoop d ms ((workQueue files L).take k) (initState L)).sentFiles,
      x ∈ (runLoop d ms ((workQueue files L).take (k + 1))
            (initState L)).sentFiles) := by
  have hQnd : (workQueue files L).Nodup := workQueue_nodup L hfiles
  have hsent : ∀ j : Nat,
      (runLoop d ms ((workQueue files L).take j) (initState L)).sentFiles
        = L ++ (((workQueue files L).take j).filter fun g => isSuccess (d g)) := by
    intro j
    rw [runLoop_sentFiles]
    simp [initState]
  refine ⟨?_, ?_, ?_, ?_, ?_⟩
  · rw [List.take_length]
    rfl
  · rw [hsent k]
    refine List.nodup_append.mpr ⟨hL, ?_, ?_⟩
    · exact List.Nodup.filter _ (hQnd.sublist (List.take_sublist k _))
    · intro a haL haF
      have haQ : a ∈ workQueue files L :=
        List.take_subset k _ ((List.mem_filter.mp haF).1)
      exact workQueue_not_mem_loaded haQ haL
  · rw [runLoop_log d ms _ _ rfl]
  · intro x hx
    rw [hsent k]
    exact List.mem_append.mpr (Or.inl hx)
  · intro x hx
    rw [hsent k] at hx
    rw [hsent (k + 1)]
    rcases List.mem_append.mp hx with hxL | hxF
    · exact List.mem_append.mpr (Or.inl hxL)
    · rcases List.mem_filter.mp hxF with ⟨hxt, hxs⟩
      refine List.mem_append.mpr (Or.inr (List.mem_filter.mpr ⟨?_, hxs⟩))
      have : (workQueue files L).take k
          = ((workQueue files L).take (k + 1)).take k := by
        rw [List.take_take]
        congr 1
        omega
      rw [this] at hxt
      exact List.take_subset k _ hxt

/-- Witness for C9 on a one-file archive after one iteration. -/
theorem claim_C9_witness :
    (runLoop allOk 0 ((workQueue ["a/1 January 2024.png"] []).take 1)
      (initState [])).sentFiles.Nodup :=
  (claim_C9_invariant ["a/1 January 2024.png"] [] allOk 0 1
    (by decide) (by decide)).2.1

/-- With a webhook URL and an existing file, exactly one request is made. -/
theorem sendToDiscord_requests (fsExists : String → Bool)
    (imagePath webhookUrl : String) (resp : HttpResponse)
    (hw : ¬ webhookUrl = "") (hfe : fsExists imagePath = true) :
    (sendToDiscord fsExists imagePath webhookUrl resp).requests = 1 := by
  rw [sendToDiscord, if_neg hw, if_neg (by simp [hfe])]
  split <;> rfl

/-- A missing URL or missing file throws before any request. -/
theorem sendToDiscord_config (fsExists : String → Bool)
    (imagePath webhookUrl : String) (resp : HttpResponse)
    (h : webhookUrl = "" ∨ fsExists imagePath = false) :
    (sendToDiscord fsExists imagePath webhookUrl resp).requests = 0 ∧
    ∃ m, (sendToDiscord fsExists imagePath webhookUrl resp).outcome
      = SendOutcome.thrown m := by
  by_cases hw : webhookUrl = ""
  · rw [sendToDiscord, if_pos hw]
    exact ⟨rfl, _, rfl⟩
  · have hfe : fsExists imagePath = false := by
      rcases h with h | h
      · exact absurd h hw
      · exact h
    rw [sendToDiscord, if_neg hw, if_pos (by simp [hfe])]
    exact ⟨rfl, _, rfl⟩

/-- On URL present, file present, 2xx response: returns true. -/
theorem sendToDiscord_ok (fsExists : String → Bool)
    (imagePath webhookUrl : String) (resp : HttpResponse)
    (hw : ¬ webhookUrl = "") (hfe : fsExists imagePath = true)
    (hro : respOk resp = true) :
    (sendToDiscord fsExists imagePath webhookUrl resp).outcome
      = SendOutcome.ok := by
  rw [sendToDiscord, if_neg hw, if_neg (by simp [hfe]), if_pos hro]

/-- On URL present, file present, non-2xx response: throws the
status-and-body message. -/
theorem sendToDiscord_httpError (fsExists : String → Bool)
    (imagePath webhookUrl : String) (resp : HttpResponse)
    (hw : ¬ webhookUrl = "") (hfe : fsExists imagePath = true)
    (hro : respOk resp = false) :
    (sendToDiscord fsExists imagePath webhookUrl resp).outcome
      = SendOutcome.thrown (discordErrorMsg resp.status resp.body) := by
  rw [sendToDiscord, if_neg hw, if_neg (by simp [hfe]), if_neg (by simp [hro])]

/-- C7: `sendToDiscord` throws before any network request exactly when the
webhook URL is empty or the file does not exist; otherwise it performs one
request, returns success exactly on a 2xx status, and on a non-2xx status it
throws a message embedding both the status code and the response body. -/
theorem claim_C7_contract (fsExists : String → Bool)
    (imagePath webhookUrl : String) (resp : HttpResponse) :
    (((sendToDiscord fsExists imagePath webhookUrl resp).requests = 0 ∧
        ∃ m, (sendToDiscord fsExists imagePath webhookUrl resp).outcome
          = SendOutcome.thrown m) ↔
      (webhookUrl = "" ∨ fsExists imagePath = false)) ∧
    ((sendToDiscord fsExists imagePath webhookUrl resp).outcome
        = SendOutcome.ok ↔
      (¬ webhookUrl = "" ∧ fsExists imagePath = true ∧ respOk resp = true)) ∧
    (¬ webhookUrl = "" → fsExists imagePath = true →
      (sendToDiscord fsExists imagePath webhookUrl resp).requests = 1) ∧
    (¬ webhookUrl = "" → fsExists imagePath = true → respOk resp = false →
      (sendToDiscord fsExists imagePath webhookUrl resp).outcome
        = SendOutcome.thrown (discordErrorMsg resp.status resp.body)) ∧
    (∃ l r, (discordErrorMsg resp.status resp.body).data
      = l ++ (toString resp.status).data ++ r) ∧
    (∃ l r, (discordErrorMsg resp.status resp.body).data
      = l ++ resp.body.data ++ r) := by
  have hmsg1 : ∃ l r, (discordErrorMsg resp.status resp.body).data
      = l ++ (toString resp.status).data ++ r := by
    refine ⟨("Discord API error (" : String).data, ("): " ++ resp.body).data, ?_⟩
    simp [discordErrorMsg, String.data_append]
  have hmsg2 : ∃ l r, (discordErrorMsg resp.status resp.body).data
      = l ++ resp.body.data ++ r := by
    refine ⟨("Discord API error (" ++ toString resp.status ++ "): ").data, [], ?_⟩
    simp [discordErrorMsg, String.data_append]
  refine ⟨⟨?_, sendToDiscord_config fsExists imagePath webhookUrl resp⟩,
    ⟨?_, ?_⟩, sendToDiscord_requests fsExists imagePath webhookUrl resp,
    sendToDiscord_httpError fsExists imagePath webhookUrl resp, hmsg1, hmsg2⟩
  · rintro ⟨hreq, m, hm⟩
    by_cases hw : webhookUrl = ""
    · exact Or.inl hw
    · by_cases hfe : fsExists imagePath
      · have := sendToDiscord_requests fsExists imagePath webhookUrl resp hw hfe
        omega
      · exact Or.inr (by simpa using hfe)
  · intro hok
    by_cases hw : webhookUrl = ""
    · rcases (sendToDiscord_config fsExists imagePath webhookUrl resp
        (Or.inl hw)).2 with ⟨m, hm⟩
      rw [hok] at hm
      exact absurd hm (by simp)
    · by_cases hfe : fsExists imagePath
      · refine ⟨hw, hfe, ?_⟩
        cases hro : respOk resp
        · have := sendToDiscord_httpError fsExists imagePath webhookUrl resp
            hw hfe hro
          rw [hok] at this
          exact absurd this.symm (by simp)
        · rfl
      · rcases (sendToDiscord_config fsExists imagePath webhookUrl resp
          (Or.inr (by simpa using hfe))).2 with ⟨m, hm⟩
        rw [hok] at hm
        exact absurd hm (by simp)
  · rintro ⟨hw, hfe, hro⟩
    exact sendToDiscord_ok fsExists imagePath webhookUrl resp hw hfe hro

/-- Witness for C7: a 500 response with an existing file throws the
status-and-body message. -/
theorem claim_C7_witness :
    (sendToDiscord alwaysExists "a.png" "https://example" ⟨500, "boom"⟩).outcome
      = SendOutcome.thrown (discordErrorMsg 500 "boom") :=
  (claim_C7_contract alwaysExists "a.png" "https://example"
    ⟨500, "boom"⟩).2.2.2.1 (by decide) rfl (by decide)

/-- C5 counterexample: `1 January 1900.png` matches the pattern with a
recognized month, yet its extracted value is negative, so the sentinel 0
returned for a non-matching name such as `x.png` does NOT sort strictly
before every valid filename's date. -/
theorem claim_C5_counterexample :
    extractDateFromPath "x.png" = 0 ∧
    matchDatePattern "1 January 1900.png" = some ("1", "January", "1900") ∧
    extractDateFromPath "1 January 1900.png" = -2208988800000 ∧
    ¬ ((0 : Int) < -2208988800000) := by
  refine ⟨by decide, by decide, by decide, by decide⟩

/-- C5 (amended): the extraction is total and never throws; a non-matching
or unrecognized-month filename yields the numeric sentinel 0; a matching
`<day> <Month> <year>.png` filename yields the JavaScript
`new Date(year, monthIndex, day).getTime()` value of its parsed components
(JS maps years 0–99 to 1900–1999, normalizes day overflow, and — per
ECMAScript TimeClip — yields NaN beyond ±8.64e15 ms, e.g. year 300000,
which the sort comparator then treats as a tie); whenever that value is a
number for a year-1971-onwards date it is strictly positive, so the
sentinel sorts strictly before it — but not before every valid date:
pre-epoch dates sort before the sentinel, as the counterexample shows, and
out-of-range dates are NaN. Whenever the clipped value is a number it
coincides with the pre-clip sort key `extractDateFromPath`. -/
theorem claim_C5_amended :
    (∀ s : String, matchDatePattern (basename s) = none →
      extractDateClipped s = some 0) ∧
    (∀ s dayStr monthName yearStr : String,
      matchDatePattern (basename s) = some (dayStr, monthName, yearStr) →
      months.findIdx? (fun m => m == monthName) = none →
      extractDateClipped s = some 0) ∧
    (∀ (dstr ystr : String) (i : Fin months.length),
      dstr.data ≠ [] → (∀ c ∈ dstr.data, jsIsDigit c = true) →
      ystr.data ≠ [] → (∀ c ∈ ystr.data, jsIsDigit c = true) →
      extractDateClipped (dstr ++ " " ++ months.get i ++ " " ++ ystr ++ ".png")
        = jsDateMsClipped (parseIntDigits ystr) i.val (parseIntDigits dstr)) ∧
    (∀ y mi dd : Nat, ∀ t : Int, 1971 ≤ y → mi < 12 → 1 ≤ dd →
      jsDateMsClipped y mi dd = some t → 0 < t) ∧
    (∀ (s : String) (t : Int), extractDateClipped s = some t →
      extractDateFromPath s = t) ∧
    jsDateMsClipped 300000 0 1 = none := by
  refine ⟨?_, ?_, extractDateClipped_render, ?_, extractDateClipped_agrees,
    by decide⟩
  · intro s h
    rw [extractDateClipped, h]
  · intro s dayStr monthName yearStr h1 h2
    rw [extractDateClipped, h1]
    simp [h2]
  · intro y mi dd t hy hm hd h
    exact jsDateMsClipped_pos y mi dd t hy hm hd h

/-- Witness for C5 on the filename `9 December 2025.png`. -/
theorem claim_C5_witness :
    extractDateClipped
        ("9" ++ " " ++ months.get ⟨11, by decide⟩ ++ " " ++ "2025" ++ ".png")
      = jsDateMsClipped (parseIntDigits "2025") 11 (parseIntDigits "9") :=
  claim_C5_amended.2.2.1 "9" "2025" ⟨11, by decide⟩
    (by decide) (by decide) (by decide) (by decide)

/-- C6 counterexample: with the inter-message delay configured to 60000 ms
(a legal `DISCORD_DELAY_MS` value), the rate-limit cooldown of 60000 ms is
not strictly longer than the configured delay. -/
theorem claim_C6_counterexample :
    (sendAllArchives ["a.png"] [] always429 60000).state.events
      = [Event.attempt "a.png",
         Event.failed "a.png" (discordErrorMsg 429 "rate limited"),
         Event.wait 60000] ∧
    ¬ ((60000 : Nat) > 60000) := by
  refine ⟨by decide, by omega⟩

/-- C6 (amended): a rate-limited failure makes the loop wait exactly
60000 ms before the next attempt, and this cooldown is strictly longer than
the inter-message delay whenever the configured delay is under 60000 ms (in
particular the 2000 ms default) — not for every configured delay. -/
theorem claim_C6_amended (files L : List String) (d : String → DeliverOutcome)
    (ms : Nat) (f msg : String) (isLast : Bool)
    (hfail : d f = DeliverOutcome.failure msg)
    (hrl : isRateLimitMsg msg = true) :
    (sendAllArchives files L d ms).state.events
      = loopEvents d ms (workQueue files L) ∧
    iterEvents d ms isLast f
      = [Event.attempt f, Event.failed f msg, Event.wait 60000] ∧
    (ms < 60000 → 60000 > ms) := by
  refine ⟨?_, ?_, fun h => h⟩
  · rw [sendAllArchives_state, runLoop_events]
    simp [initState, workQueue]
  · simp [iterEvents, hfail, hrl]

/-- Witness for C6 at the default 2000 ms delay. -/
theorem claim_C6_witness :
    iterEvents always429 2000 true "a.png"
      = [Event.attempt "a.png",
         Event.failed "a.png" (discordErrorMsg 429 "rate limited"),
         Event.wait 60000] :=
  (claim_C6_amended [] [] always429 2000 "a.png"
    (discordErrorMsg 429 "rate limited") true rfl (by decide)).2.1

/-- C10: a failure is classified as rate-limited (and 60-second cooldown
waited) exactly when the thrown message contains `rate limit` or `429`;
every HTTP 429 error message is so classified; and a non-429 failure whose
body contains `429` also triggers the cooldown. -/
theorem claim_C10_classification :
    (∀ msg : String, isRateLimitMsg msg = true ↔
      ((∃ l r, msg.data = l ++ ("rate limit" : String).data ++ r) ∨
       (∃ l r, msg.data = l ++ ("429" : String).data ++ r))) ∧
    (∀ (d : String → DeliverOutcome) (ms : Nat) (isLast : Bool)
        (f msg : String), d f = DeliverOutcome.failure msg →
      (Event.wait 60000 ∈ iterEvents d ms isLast f ↔
        isRateLimitMsg msg = true)) ∧
    (∀ body : String, isRateLimitMsg (discordErrorMsg 429 body) = true) ∧
    (respOk ⟨500, "try 429 later"⟩ = false ∧ ¬ (500 = 429) ∧
      isRateLimitMsg (discordErrorMsg 500 "try 429 later") = true ∧
      Event.wait 60000 ∈ iterEvents
        (fun _ => DeliverOutcome.failure (discordErrorMsg 500 "try 429 later"))
        2000 true "f.png") := by
  refine ⟨?_, ?_, ?_, by decide⟩
  · intro msg
    rw [isRateLimitMsg, Bool.or_eq_true, strIncludes_iff, strIncludes_iff]
  · intro d ms isLast f msg hfail
    simp only [iterEvents, hfail]
    cases hrl : isRateLimitMsg msg
    · simp
    · simp
  · intro body
    have h : ∃ l r, (discordErrorMsg 429 body).data
        = l ++ ("429" : String).data ++ r := by
      refine ⟨("Discord API error (" : String).data, ("): " ++ body).data, ?_⟩
      have h429 : toString (429 : Nat) = "429" := by decide
      simp [discordErrorMsg, h429, String.data_append]
    rw [isRateLimitMsg, Bool.or_eq_true]
    exact Or.inr ((strIncludes_iff _ _).mpr h)

/-- Witness for C10: a 429 failure message makes the loop emit the
cooldown wait. -/
theorem claim_C10_witness :
    Event.wait 60000 ∈ iterEvents always429 2000 true "a.png" :=
  (claim_C10_classification.2.1 always429 2000 true "a.png"
    (discordErrorMsg 429 "rate limited") rfl).mpr (by decide)

end Archive
